import Mathlib

/-!
Verification of the task-coordination-ledger repository.

The ledger itself (`data_pipeline.py` / `task_manager.task_manager.TaskManager`)
is exercised by the scripts under `src/` (create_seed_tasks.py,
create_10_tasks.py, process_all_10_tasks.py, sdk_agent_runner.py) but its own
implementation file is not part of `src/`; the ledger operations below are
therefore modelled from the specification, with the field/key names that the
callers in `src/` rely on.  The consumer-layer functions
(`BatchProcessor.get_pending_seed_tasks`, `select_tasks`, `TASK_POOL`) are
translated directly from the Python sources in `src/experiments/`.
-/

namespace Ledger

/-- Modelled from the spec: task status enumeration
{pending, in_progress, completed, failed, cancelled}. -/
inductive Status where
  | pending
  | in_progress
  | completed
  | failed
  | cancelled
deriving DecidableEq, Repr

/-- Modelled from the spec: the terminal outcome argument of `complete`;
"outcome must be one of {completed, failed, cancelled}". -/
inductive Outcome where
  | completed
  | failed
  | cancelled
deriving DecidableEq, Repr

def Outcome.toStatus : Outcome → Status
  | .completed => .completed
  | .failed => .failed
  | .cancelled => .cancelled

/-- Modelled from the spec: one Task Record of the ledger (`data_pipeline.py`
is not under src/).  `data` is the opaque payload, represented as a tagged
map, as the spec's design notes direct. -/
structure Task where
  id : Nat
  type : String
  status : Status
  data : List (String × String)
  parent_id : Option Nat
  claimed_by : Option String
  created_at : Nat
  updated_at : Nat
  result : Option String
deriving DecidableEq, Repr

/-- Modelled from the spec: the Ledger Store — Task Records in insertion
order, a monotonic id counter, and the `last_updated` metadata timestamp. -/
structure Store where
  tasks : List Task
  next_id : Nat
  last_updated : Nat
deriving DecidableEq, Repr

def emptyStore : Store := { tasks := [], next_id := 0, last_updated := 0 }

/-- Modelled from the spec: error taxonomy of the ledger operations.
`PersistError` stands for a durability failure of `persist()`. -/
inductive LedgerError where
  | UnknownParentError
  | NotFoundError
  | InvalidTransitionError
  | PersistError
deriving DecidableEq, Repr

def hasId (s : Store) (i : Nat) : Bool :=
  s.tasks.any (fun t => t.id == i)

def parentOk (s : Store) : Option Nat → Bool
  | none => true
  | some p => hasId s p

/-- Modelled from the spec: `create(type, data, parent_id) -> id`.  Validates
the parent, allocates the next monotonic id, inserts a pending record with the
payload stored verbatim, then persists.  The `persistOk` flag models whether
`persist()` succeeds; on any failure the returned store is the input store
(atomic all-or-nothing). -/
def create (s : Store) (ty : String) (d : List (String × String))
    (parent : Option Nat) (now : Nat) (persistOk : Bool) :
    Except LedgerError Nat × Store :=
  if parentOk s parent then
    let t : Task :=
      { id := s.next_id, type := ty, status := .pending, data := d,
        parent_id := parent, claimed_by := none,
        created_at := now, updated_at := now, result := none }
    if persistOk then
      (.ok s.next_id,
        { tasks := s.tasks ++ [t], next_id := s.next_id + 1, last_updated := now })
    else
      (.error .PersistError, s)
  else
    (.error .UnknownParentError, s)

def isPendingOf (ty : String) (t : Task) : Bool :=
  t.type == ty && t.status == .pending

/-- The claim-time mutation of the selected record: `status = in_progress`,
`claimed_by = caller`, `updated_at` advanced. -/
def markClaimed (caller : String) (now : Nat) (t : Task) : Task :=
  { t with status := .in_progress, claimed_by := some caller, updated_at := now }

/-- Scan for the first pending record of the requested type, in creation
(list) order, and transition it in place. -/
def claimAux (caller : String) (now : Nat) (ty : String) :
    List Task → Option (Task × List Task)
  | [] => none
  | t :: ts =>
    if isPendingOf ty t then
      some (markClaimed caller now t, markClaimed caller now t :: ts)
    else
      match claimAux caller now ty ts with
      | none => none
      | some (c, ts2) => some (c, t :: ts2)

/-- Modelled from the spec: `claim(type) -> Task Record | empty`.  Under the
exclusive lock: scan pending records of `type` oldest-first, transition the
first match to in_progress, persist, return the record; an empty scan is a
success (`none`), not an error.  If `persist()` fails the in-memory state is
rolled back (the input store is returned unchanged). -/
def claim (s : Store) (ty caller : String) (now : Nat) (persistOk : Bool) :
    Except LedgerError (Option Task) × Store :=
  match claimAux caller now ty s.tasks with
  | none => (.ok none, s)
  | some (t, ts2) =>
    if persistOk then
      (.ok (some t), { s with tasks := ts2, last_updated := now })
    else
      (.error .PersistError, s)

def findTask (s : Store) (i : Nat) : Option Task :=
  s.tasks.find? (fun t => t.id == i)

/-- The completion-time mutation: `status = outcome`, `result` stored,
`claimed_by` cleared, `updated_at` advanced. -/
def completeRecord (o : Outcome) (res : Option String) (now : Nat) (t : Task) : Task :=
  { t with status := o.toStatus, result := res, claimed_by := none, updated_at := now }

/-- Modelled from the spec: `complete(id, outcome, result)`.  Fails with
`NotFoundError` on an unknown id and with `InvalidTransitionError` when the
current status is not `in_progress`; on success applies `completeRecord` to
the record and persists.  A persist failure rolls back. -/
def complete (s : Store) (i : Nat) (o : Outcome) (res : Option String)
    (now : Nat) (persistOk : Bool) : Except LedgerError Unit × Store :=
  match findTask s i with
  | none => (.error .NotFoundError, s)
  | some t =>
    if t.status == .in_progress then
      if persistOk then
        (.ok (),
          { s with
            tasks := s.tasks.map (fun u => if u.id == i then completeRecord o res now u else u),
            last_updated := now })
      else
        (.error .PersistError, s)
    else
      (.error .InvalidTransitionError, s)

/-- The aggregate view produced by `get_status_summary`.  The field names
follow the keys the callers in src/ read:
`summary['total_tasks']`, `summary['type_counts']`, `summary['status_counts']`,
`summary['metadata']['last_updated']`
(create_seed_tasks.py lines 354-367, create_10_tasks.py lines 122-134). -/
structure StatusSummary where
  total_tasks : Nat
  type_counts : String → Nat
  status_counts : Status → Nat
  metadata_last_updated : Nat

/-- Modelled from the spec: `status_summary()` — aggregate counts computed
over the full Ledger Store at call time. -/
def get_status_summary (s : Store) : StatusSummary :=
  { total_tasks := s.tasks.length
    type_counts := fun ty => (s.tasks.filter (fun t => t.type == ty)).length
    status_counts := fun st => (s.tasks.filter (fun t => t.status == st)).length
    metadata_last_updated := s.last_updated }

/-- The top-level JSON keys under which the summary is exposed, as evidenced
by the callers in src/ (create_seed_tasks.py lines 354-367,
create_10_tasks.py lines 122-134). -/
def get_status_summary_keys : List String :=
  ["total_tasks", "type_counts", "status_counts", "metadata"]

/-- The keys the spec's words prescribe for `status_summary()`:
`{ total, counts_by_type, counts_by_status, last_updated }`. -/
def status_summary_spec_keys : List String :=
  ["total", "counts_by_type", "counts_by_status", "last_updated"]

/-- One mutating ledger operation together with the fate of its `persist()`
call, for building operation sequences. -/
inductive Op where
  | op_create (ty : String) (d : List (String × String)) (parent : Option Nat)
      (now : Nat) (ok : Bool)
  | op_claim (ty caller : String) (now : Nat) (ok : Bool)
  | op_complete (i : Nat) (o : Outcome) (res : Option String) (now : Nat) (ok : Bool)

def stepStore (s : Store) : Op → Store
  | .op_create ty d p now ok => (create s ty d p now ok).2
  | .op_claim ty c now ok => (claim s ty c now ok).2
  | .op_complete i o r now ok => (complete s i o r now ok).2

/-- The id returned by the operation when it is a successful `create`. -/
def createdId (s : Store) : Op → Option Nat
  | .op_create ty d p now ok =>
    match (create s ty d p now ok).1 with
    | .ok i => some i
    | .error _ => none
  | _ => none

def runOps (s : Store) : List Op → Store
  | [] => s
  | o :: os => runOps (stepStore s o) os

/-- The ids handed out by the `create` calls of an operation sequence, in call
order. -/
def createdIds (s : Store) : List Op → List Nat
  | [] => []
  | o :: os =>
    (match createdId s o with
     | some i => [i]
     | none => []) ++ createdIds (stepStore s o) os

/-- A store state is reachable when some operation sequence produces it from
the empty store. -/
def Reachable (s : Store) : Prop :=
  ∃ ops : List Op, runOps emptyStore ops = s

/-- The pending Task Records of one type, in creation order. -/
def pendingList (s : Store) (ty : String) : List Task :=
  s.tasks.filter (isPendingOf ty)

/-- N successive `claim` calls (the lock-serialized picture of N concurrent
callers), collecting the claimed records. -/
def claimSeq (s : Store) (ty : String) (now : Nat) :
    List String → List Task × Store
  | [] => ([], s)
  | c :: cs =>
    match claim s ty c now true with
    | (.ok (some t), s2) =>
      let r := claimSeq s2 ty now cs
      (t :: r.1, r.2)
    | (_, s2) =>
      let r := claimSeq s2 ty now cs
      (r.1, r.2)

/-- The ids of the Task Records held by the store, in insertion order. -/
def storeIds (s : Store) : List Nat := s.tasks.map Task.id

/-- The id-related store invariant: ids are pairwise distinct and below the
monotonic counter. -/
def Inv (s : Store) : Prop :=
  (storeIds s).Nodup ∧ ∀ i ∈ storeIds s, i < s.next_id

/-- The FIFO scenario store: three tasks of one type created at times
`t1`, `t2`, `t3`. -/
def fifoStore (ty : String) (d1 d2 d3 : List (String × String))
    (t1 t2 t3 : Nat) : Store :=
  (create (create (create emptyStore ty d1 none t1 true).2
    ty d2 none t2 true).2 ty d3 none t3 true).2

/-- A completion scenario store: two `seed` tasks are created and the first
is claimed, leaving task 0 in_progress and task 1 pending (never claimed). -/
def completionScenarioStore : Store :=
  runOps emptyStore
    [Op.op_create "seed" [] none 0 true,
     Op.op_create "seed" [] none 1 true,
     Op.op_claim "seed" "w" 2 true]

/-- The status-summary scenario store: 5 `seed` tasks and 2 `draft` tasks are
created, 1 `seed` task is claimed and then completed. -/
def summaryScenarioStore : Store :=
  let sA := (create emptyStore "seed" [] none 0 true).2
  let sB := (create sA "seed" [] none 1 true).2
  let sC := (create sB "seed" [] none 2 true).2
  let sD := (create sC "seed" [] none 3 true).2
  let sE := (create sD "seed" [] none 4 true).2
  let sF := (create sE "draft" [] none 5 true).2
  let sG := (create sF "draft" [] none 6 true).2
  let sH := (claim sG "seed" "agent" 7 true).2
  (complete sH 0 Outcome.completed none 8 true).2

end Ledger

namespace Experiments

/-- An element of the `tasks` array in the JSON printed by
`data_pipeline.py list`, as consumed by `BatchProcessor` — an opaque JSON
object (tagged map). -/
def TaskJson := List (String × String)
deriving DecidableEq

/-- The observable outcome of `subprocess.run` on the `data_pipeline.py list`
command: the process exit code, and the `tasks` field of the JSON document
parsed from stdout (`none` when the key is absent). -/
structure CmdResult where
  returncode : Int
  data_tasks : Option (List TaskJson)
deriving DecidableEq

/-- The command line run by `BatchProcessor.get_pending_seed_tasks`
(process_all_10_tasks.py lines 44-49). -/
def seed_list_cmd : List String :=
  ["python", "data_pipeline.py", "list", "--type", "seed_dp", "--status", "pending"]

/-- The command line run by `BatchProcessor.get_pending_draft_tasks`
(process_all_10_tasks.py lines 59-64). -/
def draft_list_cmd : List String :=
  ["python", "data_pipeline.py", "list", "--type", "draft_dp", "--status", "pending"]

/-- `BatchProcessor.get_pending_seed_tasks` (process_all_10_tasks.py lines
41-54), parameterized over the subprocess behaviour `run`: when the exit code
is 0 it returns `data.get("tasks", [])`, otherwise it returns `[]`. -/
def get_pending_seed_tasks (run : List String → CmdResult) : List TaskJson :=
  let result := run seed_list_cmd
  if result.returncode = 0 then (result.data_tasks).getD [] else []

/-- `BatchProcessor.get_pending_draft_tasks` (process_all_10_tasks.py lines
56-69). -/
def get_pending_draft_tasks (run : List String → CmdResult) : List TaskJson :=
  let result := run draft_list_cmd
  if result.returncode = 0 then (result.data_tasks).getD [] else []

/-- One entry of `TASK_POOL` in create_seed_tasks.py; `language` is absent in
the pool and set by `select_tasks`. -/
structure TaskSpec where
  task_name : String
  description : String
  complexity : String
  category : String
  language : Option String := none
deriving DecidableEq, Repr

/-- `TASK_POOL` from create_seed_tasks.py lines 19-194: the task pool
organized by language (dict insertion order preserved). -/
def TASK_POOL : List (String × List TaskSpec) :=
  [ ("python",
      [ { task_name := "n_plus_one_query_optimization",
          description := "Fix N+1 query problem causing slow API responses in Django ORM queries",
          complexity := "medium", category := "performance" },
        { task_name := "database_migration_rollback",
          description := "Fix broken database migration rollback that corrupts data",
          complexity := "hard", category := "database_migrations" },
        { task_name := "memory_leak_connection_pool",
          description := "Debug and fix memory leak in database connection pool cleanup",
          complexity := "medium", category := "memory_management" },
        { task_name := "flaky_integration_tests",
          description := "Fix flaky integration tests with race conditions in test fixtures",
          complexity := "medium", category := "testing" },
        { task_name := "circular_import_refactor",
          description := "Refactor circular dependencies causing import errors in microservice",
          complexity := "hard", category := "refactoring" },
        { task_name := "api_validation_bypass",
          description := "Fix API endpoint accepting invalid input due to missing validation",
          complexity := "easy", category := "api_security" },
        { task_name := "sqlalchemy_query_optimization",
          description := "Optimize slow SQLAlchemy queries with missing indexes and inefficient joins",
          complexity := "medium", category := "performance" },
        { task_name := "celery_task_retry_logic",
          description := "Fix Celery task retry logic causing duplicate processing",
          complexity := "medium", category := "distributed_systems" },
        { task_name := "flask_session_leak",
          description := "Debug Flask application session memory leak",
          complexity := "hard", category := "memory_management" },
        { task_name := "pytest_fixture_isolation",
          description := "Fix pytest fixtures with state leaking between tests",
          complexity := "easy", category := "testing" } ]),
    ("typescript",
      [ { task_name := "express_middleware_memory_leak",
          description := "Fix memory leak in Express.js middleware not releasing event listeners",
          complexity := "medium", category := "memory_management" },
        { task_name := "prisma_migration_conflict",
          description := "Resolve Prisma migration conflicts breaking database schema updates",
          complexity := "medium", category := "database_migrations" },
        { task_name := "nestjs_circular_dependency",
          description := "Refactor NestJS circular dependency between services",
          complexity := "hard", category := "refactoring" },
        { task_name := "typeorm_query_optimization",
          description := "Fix TypeORM N+1 query problem in GraphQL resolver",
          complexity := "medium", category := "performance" },
        { task_name := "express_validation_middleware",
          description := "Fix Express API accepting malformed JSON payloads",
          complexity := "easy", category := "api_security" } ]),
    ("javascript",
      [ { task_name := "jest_mock_cleanup",
          description := "Fix Jest tests with mock state leaking between test suites",
          complexity := "easy", category := "testing" },
        { task_name := "express_connection_leak",
          description := "Debug Express server connection pool leak",
          complexity := "medium", category := "memory_management" },
        { task_name := "mongoose_migration_script",
          description := "Fix MongoDB migration script with data corruption",
          complexity := "hard", category := "database_migrations" },
        { task_name := "node_api_rate_limiting",
          description := "Fix broken rate limiting allowing unlimited requests",
          complexity := "medium", category := "api_security" } ]),
    ("go",
      [ { task_name := "goroutine_leak_detection",
          description := "Debug and fix goroutine leak in HTTP client connection handling",
          complexity := "hard", category := "memory_management" },
        { task_name := "sql_migration_rollback",
          description := "Fix database migration rollback leaving orphaned tables",
          complexity := "medium", category := "database_migrations" },
        { task_name := "go_api_validation",
          description := "Fix API handler accepting invalid request types",
          complexity := "easy", category := "api_security" },
        { task_name := "gorm_query_optimization",
          description := "Optimize GORM queries with N+1 problem",
          complexity := "medium", category := "performance" } ]),
    ("rust",
      [ { task_name := "actix_connection_pool",
          description := "Fix Actix-web connection pool not releasing connections",
          complexity := "hard", category := "memory_management" },
        { task_name := "diesel_migration_bug",
          description := "Fix Diesel migration causing schema inconsistency",
          complexity := "medium", category := "database_migrations" } ]),
    ("java",
      [ { task_name := "spring_hikari_leak",
          description := "Debug HikariCP connection pool leak in Spring Boot",
          complexity := "medium", category := "memory_management" },
        { task_name := "hibernate_n_plus_one",
          description := "Fix Hibernate N+1 query problem in REST API",
          complexity := "medium", category := "performance" } ]) ]

/-- `TASK_POOL[lang]` with the source's `lang not in TASK_POOL` guard folded
in: the empty list stands for both a missing key and an empty pool. -/
def poolOf (lang : String) : List TaskSpec :=
  ((TASK_POOL.find? (fun p => p.1 == lang)).map Prod.snd).getD []

/-- Python `round` on the exact rational num/den (round half to even).
create_seed_tasks.py computes `round((percentage / total_percentage) * count)`
in floating point; the bounds proved below do not depend on the rounding
function, only on the `min` clamps applied to its result. -/
def pyRound (num den : Nat) : Nat :=
  let q := num / den
  let r := num % den
  if 2 * r < den then q
  else if den < 2 * r then q + 1
  else if q % 2 = 0 then q else q + 1

/-- Stable insertion of one `(language, percentage)` pair into a list sorted
by descending percentage (equal percentages keep encounter order), modelling
`sorted(language_percentages.items(), key=lambda x: x[1], reverse=True)`. -/
def insertDesc (x : String × Nat) : List (String × Nat) → List (String × Nat)
  | [] => [x]
  | y :: ys => if y.2 < x.2 then x :: y :: ys else y :: insertDesc x ys

def sortDesc (l : List (String × Nat)) : List (String × Nat) :=
  l.foldl (fun acc x => insertDesc x acc) []

/-- The mutable state of `select_tasks`: the `language_counts` dict (insertion
order preserved) and the `remaining` slot counter. -/
structure SelState where
  counts : List (String × Nat)
  remaining : Nat
deriving DecidableEq, Repr

/-- `language_counts[lang]` lookup. -/
def getCount (l : List (String × Nat)) (lang : String) : Nat :=
  ((l.find? (fun p => p.1 == lang)).map Prod.snd).getD 0

/-- `language_counts[lang] = v` dict update (key position preserved). -/
def setCount (l : List (String × Nat)) (lang : String) (v : Nat) :
    List (String × Nat) :=
  l.map (fun p => if p.1 == lang then (p.1, v) else p)

/-- The body of the first loop of `select_tasks` (create_seed_tasks.py lines
256-265): skip languages with no pool, clamp the proportional share by pool
size and by the remaining slots, and record strictly positive counts. -/
def phase1Step (count total : Nat) (st : SelState) (p : String × Nat) : SelState :=
  if (poolOf p.1).length == 0 then st
  else
    let lang_count := min (min (pyRound (p.2 * count) total) (poolOf p.1).length) st.remaining
    if 0 < lang_count then
      { counts := st.counts ++ [(p.1, lang_count)], remaining := st.remaining - lang_count }
    else st

/-- The body of the second loop of `select_tasks` (create_seed_tasks.py lines
268-276): hand any remaining slots to already-selected languages with spare
pool capacity. -/
def phase2Step (st : SelState) (lang : String) : SelState :=
  if st.remaining == 0 then st
  else
    let cur := getCount st.counts lang
    let available := (poolOf lang).length - cur
    if 0 < available then
      let add := min available st.remaining
      { counts := setCount st.counts lang (cur + add), remaining := st.remaining - add }
    else st

/-- `select_tasks(count, language_percentages)` from create_seed_tasks.py
lines 246-289, parameterized over the sampling and shuffling randomness
(`random.sample` returns `k` distinct pool elements; `random.shuffle`
permutes).  Returns the selected, language-tagged tasks and the per-language
counts. -/
def select_tasks (count : Nat) (language_percentages : List (String × Nat))
    (sample : List TaskSpec → Nat → List TaskSpec)
    (shuffle : List TaskSpec → List TaskSpec) :
    List TaskSpec × List (String × Nat) :=
  let total_percentage := (language_percentages.map Prod.snd).sum
  let st1 := (sortDesc language_percentages).foldl (phase1Step count total_percentage)
    { counts := [], remaining := count }
  let st2 := (st1.counts.map Prod.fst).foldl phase2Step st1
  let selected_tasks := st2.counts.foldl
    (fun acc p =>
      acc ++ ((sample (poolOf p.1) p.2).map (fun t => { t with language := some p.1 })))
    []
  (shuffle selected_tasks, st2.counts)

/-- The combined pool capacity of the languages appearing in the percentage
mapping. -/
def capacity (language_percentages : List (String × Nat)) : Nat :=
  (language_percentages.map (fun p => (poolOf p.1).length)).sum

/-- A deterministic instance of `random.sample`: the first `k` pool elements
(`random.sample` returns `k` distinct elements in some order). -/
def sampleTake (pool : List TaskSpec) (k : Nat) : List TaskSpec := pool.take k

/-- The sum of the values of a `(language, count)` association list. -/
def ValueSum (l : List (String × Nat)) : Nat := (l.map Prod.snd).sum

end Experiments

namespace Ledger

theorem markClaimed_id (c : String) (now : Nat) (t : Task) :
    (markClaimed c now t).id = t.id := rfl

theorem markClaimed_created_at (c : String) (now : Nat) (t : Task) :
    (markClaimed c now t).created_at = t.created_at := rfl

theorem isPendingOf_markClaimed (ty c : String) (now : Nat) (t : Task) :
    isPendingOf ty (markClaimed c now t) = false := by
  simp [isPendingOf, markClaimed]

theorem claimAux_eq_none_iff (c : String) (now : Nat) (ty : String)
    (ts : List Task) :
    claimAux c now ty ts = none ↔ ts.filter (isPendingOf ty) = [] := by
  induction ts with
  | nil => simp [claimAux]
  | cons t ts ih =>
    by_cases hp : isPendingOf ty t
    · simp [claimAux, hp, List.filter_cons]
    · cases h2 : claimAux c now ty ts with
      | none => simp [claimAux, hp, h2, List.filter_cons, ih.mp h2]
      | some r =>
        have h3 : ts.filter (isPendingOf ty) ≠ [] := by
          intro hc
          rw [ih.mpr hc] at h2
          exact Option.noConfusion h2
        simp [claimAux, hp, h2, List.filter_cons, h3]

theorem claimAux_some_spec (c : String) (now : Nat) (ty : String)
    (ts : List Task) :
    ∀ (t0 : Task) (rest : List Task),
      ts.filter (isPendingOf ty) = t0 :: rest →
      ∃ ts2, claimAux c now ty ts = some (markClaimed c now t0, ts2) ∧
        ts2.filter (isPendingOf ty) = rest ∧
        ts2.map Task.id = ts.map Task.id := by
  induction ts with
  | nil => intro t0 rest h; simp at h
  | cons t ts ih =>
    intro t0 rest h
    by_cases hp : isPendingOf ty t
    · rw [List.filter_cons_of_pos hp] at h
      injection h with he hrest
      subst he
      refine ⟨markClaimed c now t :: ts, ?_, ?_, ?_⟩
      · simp [claimAux, hp]
      · rw [List.filter_cons_of_neg (by simp [isPendingOf_markClaimed])]
        exact hrest
      · simp [markClaimed_id]
    · rw [List.filter_cons_of_neg hp] at h
      obtain ⟨ts2, h1, h2, h3⟩ := ih t0 rest h
      refine ⟨t :: ts2, ?_, ?_, ?_⟩
      · simp [claimAux, hp, h1]
      · rw [List.filter_cons_of_neg hp]; exact h2
      · simp [h3]

theorem claimAux_map_id (c : String) (now : Nat) (ty : String)
    (ts : List Task) :
    ∀ (t : Task) (ts2 : List Task), claimAux c now ty ts = some (t, ts2) →
      ts2.map Task.id = ts.map Task.id := by
  induction ts with
  | nil => intro t ts2 h; simp [claimAux] at h
  | cons u ts ih =>
    intro t ts2 h
    by_cases hp : isPendingOf ty u
    · simp [claimAux, hp] at h
      rw [← h.2]
      simp [markClaimed_id]
    · cases h2 : claimAux c now ty ts with
      | none => simp [claimAux, hp, h2] at h
      | some r =>
        simp [claimAux, hp, h2] at h
        rw [← h.2]
        simp [ih r.1 r.2 (by rw [h2])]

theorem claim_pending_nil (s : Store) (ty c : String) (now : Nat) (ok : Bool)
    (h : pendingList s ty = []) : claim s ty c now ok = (.ok none, s) := by
  have h2 := (claimAux_eq_none_iff c now ty s.tasks).mpr h
  simp [claim, h2]

theorem claim_pending_cons (s : Store) (ty c : String) (now : Nat) (t0 : Task)
    (rest : List Task) (h : pendingList s ty = t0 :: rest) :
    ∃ s2 : Store, claim s ty c now true = (.ok (some (markClaimed c now t0)), s2) ∧
      pendingList s2 ty = rest ∧ s2.tasks.map Task.id = s.tasks.map Task.id ∧
      s2.next_id = s.next_id := by
  obtain ⟨ts2, h1, h2, h3⟩ := claimAux_some_spec c now ty s.tasks t0 rest h
  exact ⟨{ s with tasks := ts2, last_updated := now }, by simp [claim, h1], h2, h3, rfl⟩

theorem claimSeq_eq (ty : String) (now : Nat) :
    ∀ (callers : List String) (s : Store),
      (claimSeq s ty now callers).1
        = List.zipWith (fun c t => markClaimed c now t) callers (pendingList s ty)
  | [], s => by simp [claimSeq]
  | c :: cs, s => by
    cases h : pendingList s ty with
    | nil =>
      simp [claimSeq, claim_pending_nil s ty c now true h, claimSeq_eq ty now cs s, h]
    | cons t0 rest =>
      obtain ⟨s2, h1, h2, _, _⟩ := claim_pending_cons s ty c now t0 rest h
      simp [claimSeq, h1, claimSeq_eq ty now cs s2, h2]

theorem claimSeq_store_ids (ty : String) (now : Nat) :
    ∀ (callers : List String) (s : Store),
      (claimSeq s ty now callers).2.tasks.map Task.id = s.tasks.map Task.id
  | [], s => rfl
  | c :: cs, s => by
    cases h : pendingList s ty with
    | nil =>
      simp [claimSeq, claim_pending_nil s ty c now true h, claimSeq_store_ids ty now cs s]
    | cons t0 rest =>
      obtain ⟨s2, h1, _, h3, _⟩ := claim_pending_cons s ty c now t0 rest h
      simp [claimSeq, h1, claimSeq_store_ids ty now cs s2, h3]

theorem zipWith_markClaimed_map_id (now : Nat) :
    ∀ (cs : List String) (ts : List Task),
      (List.zipWith (fun c t => markClaimed c now t) cs ts).map Task.id
        = (ts.take cs.length).map Task.id
  | [], ts => by simp
  | c :: cs, [] => by simp
  | c :: cs, t :: ts => by
    simp [zipWith_markClaimed_map_id now cs ts, markClaimed_id]

theorem forall2_take_zipWith {α β γ : Type} (R : α → γ → Prop) (f : α → β → γ)
    (h : ∀ a b, R a (f a b)) :
    ∀ (l1 : List α) (l2 : List β),
      List.Forall₂ R (l1.take (List.zipWith f l1 l2).length) (List.zipWith f l1 l2)
  | [], l2 => by simp
  | a :: l1, [] => by simp
  | a :: l1, b :: l2 => by
    simpa using List.Forall₂.cons (h a b) (forall2_take_zipWith R f h l1 l2)

theorem complete_map_id (i : Nat) (o : Outcome) (res : Option String)
    (now : Nat) :
    ∀ ts : List Task,
      (ts.map (fun u => if u.id == i then completeRecord o res now u else u)).map Task.id
        = ts.map Task.id
  | [] => rfl
  | u :: ts => by
    simp only [List.map_cons, complete_map_id i o res now ts]
    congr 1
    split <;> rfl

theorem inv_empty : Inv emptyStore := by
  constructor <;> simp [storeIds, emptyStore]

theorem inv_append_fresh (s : Store) (t : Task) (now : Nat)
    (ht : t.id = s.next_id) (h : Inv s) :
    Inv { tasks := s.tasks ++ [t], next_id := s.next_id + 1, last_updated := now } := by
  obtain ⟨h1, h2⟩ := h
  constructor
  · show ((s.tasks ++ [t]).map Task.id).Nodup
    rw [List.map_append, List.nodup_append]
    refine ⟨h1, List.nodup_singleton _, ?_⟩
    intro a ha hb
    have hb2 : a = t.id := by simpa using hb
    have := h2 a ha
    omega
  · intro a ha
    show a < s.next_id + 1
    have ha2 : a ∈ (s.tasks ++ [t]).map Task.id := ha
    rw [List.map_append, List.mem_append] at ha2
    rcases ha2 with ha2 | ha2
    · have := h2 a ha2
      omega
    · have : a = t.id := by simpa using ha2
      omega

theorem inv_create (s : Store) (ty : String) (d : List (String × String))
    (p : Option Nat) (now : Nat) (ok : Bool) :
    Inv s → Inv ((create s ty d p now ok).2) := by
  intro h
  unfold create
  by_cases hp : parentOk s p
  · cases ok with
    | false => simpa [hp] using h
    | true =>
      simp only [hp, if_true]
      exact inv_append_fresh s _ now rfl h
  · simpa [hp] using h

theorem inv_claim (s : Store) (ty c : String) (now : Nat) (ok : Bool) :
    Inv s → Inv ((claim s ty c now ok).2) := by
  intro h
  obtain ⟨h1, h2⟩ := h
  unfold claim
  cases hc : claimAux c now ty s.tasks with
  | none => exact ⟨h1, h2⟩
  | some r =>
    obtain ⟨t, ts2⟩ := r
    have hid := claimAux_map_id c now ty s.tasks t ts2 hc
    cases ok with
    | false => exact ⟨h1, h2⟩
    | true =>
      simp only [if_true]
      constructor
      · show (ts2.map Task.id).Nodup
        rw [hid]
        exact h1
      · intro a ha
        have ha2 : a ∈ ts2.map Task.id := ha
        rw [hid] at ha2
        exact h2 a ha2

theorem inv_complete (s : Store) (i : Nat) (o : Outcome) (res : Option String)
    (now : Nat) (ok : Bool) :
    Inv s → Inv ((complete s i o res now ok).2) := by
  intro h
  obtain ⟨h1, h2⟩ := h
  unfold complete
  cases hf : findTask s i with
  | none => exact ⟨h1, h2⟩
  | some t =>
    by_cases hs : t.status == Status.in_progress
    · cases ok with
      | false => simpa [hs] using ⟨h1, h2⟩
      | true =>
        simp only [hs, if_true]
        constructor
        · show (((s.tasks.map fun u => if u.id == i then completeRecord o res now u else u).map Task.id)).Nodup
          rw [complete_map_id]
          exact h1
        · intro a ha
          have ha2 : a ∈ ((s.tasks.map fun u => if u.id == i then completeRecord o res now u else u).map Task.id) := ha
          rw [complete_map_id] at ha2
          exact h2 a ha2
    · simpa [hs] using ⟨h1, h2⟩

theorem inv_step (s : Store) (o : Op) : Inv s → Inv (stepStore s o) := by
  intro h
  cases o with
  | op_create ty d p now ok => exact inv_create s ty d p now ok h
  | op_claim ty c now ok => exact inv_claim s ty c now ok h
  | op_complete i oo res now ok => exact inv_complete s i oo res now ok h

theorem inv_runOps : ∀ (ops : List Op) (s : Store), Inv s → Inv (runOps s ops)
  | [], s, h => h
  | o :: os, s, h => inv_runOps os (stepStore s o) (inv_step s o h)

theorem reachable_inv (s : Store) (h : Reachable s) : Inv s := by
  obtain ⟨ops, hops⟩ := h
  exact hops ▸ inv_runOps ops emptyStore inv_empty

theorem next_id_step_le (s : Store) (o : Op) :
    s.next_id ≤ (stepStore s o).next_id := by
  cases o with
  | op_create ty d p now ok =>
    unfold stepStore create
    by_cases hp : parentOk s p
    · cases ok <;> simp [hp]
    · simp [hp]
  | op_claim ty c now ok =>
    unfold stepStore claim
    cases hc : claimAux c now ty s.tasks with
    | none => simp [hc]
    | some r =>
      obtain ⟨t, ts2⟩ := r
      cases ok <;> simp [hc]
  | op_complete i oo res now ok =>
    unfold stepStore complete
    cases hf : findTask s i with
    | none => simp [hf]
    | some t =>
      by_cases hs : t.status == Status.in_progress
      · cases ok <;> simp [hf, hs]
      · simp [hf, hs]

theorem createdId_some (s : Store) (o : Op) (i : Nat)
    (h : createdId s o = some i) :
    i = s.next_id ∧ (stepStore s o).next_id = s.next_id + 1 := by
  cases o with
  | op_create ty d p now ok =>
    by_cases hp : parentOk s p
    · cases ok with
      | false => simp [createdId, create, hp] at h
      | true =>
        simp [createdId, create, hp] at h
        simp [stepStore, create, hp, h]
    · simp [createdId, create, hp] at h
  | op_claim ty c now ok => simp [createdId] at h
  | op_complete j oo res now ok => simp [createdId] at h

theorem createdIds_spec :
    ∀ (ops : List Op) (s : Store),
      (∀ i ∈ createdIds s ops, s.next_id ≤ i) ∧
        (createdIds s ops).Sorted (· < ·)
  | [], s => by simp [createdIds]
  | o :: os, s => by
    obtain ⟨ihlb, ihsort⟩ := createdIds_spec os (stepStore s o)
    cases h : createdId s o with
    | none =>
      constructor
      · intro i hi
        simp only [createdIds, h, List.nil_append] at hi
        exact le_trans (next_id_step_le s o) (ihlb i hi)
      · simpa [createdIds, h] using ihsort
    | some i0 =>
      obtain ⟨hi0, hnext⟩ := createdId_some s o i0 h
      constructor
      · intro i hi
        simp only [createdIds, h, List.singleton_append, List.mem_cons] at hi
        rcases hi with rfl | hi
        · omega
        · have := ihlb i hi
          omega
      · simp only [createdIds, h, List.singleton_append, List.sorted_cons]
        refine ⟨fun j hj => ?_, ihsort⟩
        have := ihlb j hj
        omega

theorem countP_id_le_one (i : Nat) :
    ∀ l : List Task, (l.map Task.id).Nodup →
      l.countP (fun t => t.id == i) ≤ 1
  | [], _ => by simp
  | t :: l, h => by
    rw [List.map_cons, List.nodup_cons] at h
    obtain ⟨h1, h2⟩ := h
    by_cases ht : t.id = i
    · have hz : l.countP (fun t => t.id == i) = 0 := by
        rw [List.countP_eq_zero]
        intro u hu
        simp only [beq_iff_eq]
        intro hui
        exact h1 (by rw [ht, ← hui]; exact List.mem_map_of_mem Task.id hu)
      simp [List.countP_cons, ht, hz]
    · have hb : (t.id == i) = false := by simpa using ht
      have := countP_id_le_one i l h2
      simp only [List.countP_cons, hb, Bool.false_eq_true, if_false]
      omega

/-- C1: in every reachable Ledger Store state at most one live claim
(`claimed_by` set and status = in_progress) exists per task id; and N
lock-serialized `claim(type)` callers against K pending tasks of that type
receive exactly `min(N, K)` records with pairwise distinct ids, the k-th
record going to the k-th caller (claimed by it, in progress) — no task is
returned twice. -/
theorem claim_at_most_once (s : Store) (hs : Reachable s) (ty : String)
    (now : Nat) (callers : List String) :
    (∀ i : Nat,
      s.tasks.countP
        (fun t => t.id == i && (t.status == Status.in_progress && t.claimed_by.isSome)) ≤ 1)
  ∧ (claimSeq s ty now callers).1.length
      = min callers.length (pendingList s ty).length
  ∧ ((claimSeq s ty now callers).1.map Task.id).Nodup
  ∧ List.Forall₂ (fun c t => t.claimed_by = some c ∧ t.status = Status.in_progress)
      (callers.take (claimSeq s ty now callers).1.length)
      (claimSeq s ty now callers).1 := by
  obtain ⟨hnd, _⟩ := reachable_inv s hs
  have hnd2 : (s.tasks.map Task.id).Nodup := hnd
  refine ⟨?_, ?_, ?_, ?_⟩
  · intro i
    refine le_trans (List.countP_mono_left ?_) (countP_id_le_one i s.tasks hnd2)
    intro a _ h
    simp only [Bool.and_eq_true] at h
    exact h.1
  · rw [claimSeq_eq, List.length_zipWith]
  · rw [claimSeq_eq, zipWith_markClaimed_map_id]
    have hsub : List.Sublist ((pendingList s ty).take callers.length) s.tasks :=
      List.Sublist.trans (List.take_sublist _ _) (List.filter_sublist s.tasks)
    exact List.Nodup.sublist (hsub.map Task.id) hnd2
  · rw [claimSeq_eq]
    exact forall2_take_zipWith _ _ (fun a b => ⟨rfl, rfl⟩) callers (pendingList s ty)

/-- C1 witness: the theorem applied to a concrete reachable store (one
pending `seed` task) and one caller. -/
theorem claim_at_most_once_witness :
    (∀ i : Nat,
      (runOps emptyStore [Op.op_create "seed" [] none 0 true]).tasks.countP
        (fun t => t.id == i && (t.status == Status.in_progress && t.claimed_by.isSome)) ≤ 1)
  ∧ (claimSeq (runOps emptyStore [Op.op_create "seed" [] none 0 true]) "seed" 3 ["w"]).1.length
      = min ["w"].length
          (pendingList (runOps emptyStore [Op.op_create "seed" [] none 0 true]) "seed").length
  ∧ ((claimSeq (runOps emptyStore [Op.op_create "seed" [] none 0 true]) "seed" 3 ["w"]).1.map Task.id).Nodup
  ∧ List.Forall₂ (fun c t => t.claimed_by = some c ∧ t.status = Status.in_progress)
      (["w"].take
        (claimSeq (runOps emptyStore [Op.op_create "seed" [] none 0 true]) "seed" 3 ["w"]).1.length)
      (claimSeq (runOps emptyStore [Op.op_create "seed" [] none 0 true]) "seed" 3 ["w"]).1 :=
  claim_at_most_once (runOps emptyStore [Op.op_create "seed" [] none 0 true])
    ⟨[Op.op_create "seed" [] none 0 true], rfl⟩ "seed" 3 ["w"]

/-- C2: `claim(type)` serves pending records oldest-first (creation order):
the ids claimed by successive calls are exactly the first records of the
pending list, and in the concrete scenario of three tasks of one type created
at times t1 < t2 < t3, three sequential claims return them in order
t1, t2, t3. -/
theorem claim_fifo_ordering (s : Store) (ty : String) (now : Nat)
    (callers : List String) (d1 d2 d3 : List (String × String))
    (c1 c2 c3 : String) (t1 t2 t3 now2 : Nat)
    (h12 : t1 < t2) (h23 : t2 < t3) :
    (claimSeq s ty now callers).1.map Task.id
      = ((pendingList s ty).take callers.length).map Task.id
  ∧ (claimSeq (fifoStore ty d1 d2 d3 t1 t2 t3) ty now2 [c1, c2, c3]).1.map Task.created_at
      = [t1, t2, t3] := by
  constructor
  · rw [claimSeq_eq, zipWith_markClaimed_map_id]
  · rw [claimSeq_eq]
    simp [fifoStore, create, emptyStore, parentOk, pendingList, isPendingOf, markClaimed]

/-- C2 witness: the FIFO theorem applied at concrete times 0 < 1 < 2. -/
theorem claim_fifo_ordering_witness :
    (claimSeq emptyStore "seed" 9 ["a"]).1.map Task.id
      = ((pendingList emptyStore "seed").take ["a"].length).map Task.id
  ∧ (claimSeq (fifoStore "seed" [] [] [] 0 1 2) "seed" 9 ["a", "b", "c"]).1.map Task.created_at
      = [0, 1, 2] :=
  claim_fifo_ordering emptyStore "seed" 9 ["a"] [] [] [] "a" "b" "c" 0 1 2 9
    (by decide) (by decide)

/-- C8: over any sequence of ledger operations starting from the empty store,
the ids returned by successful `create` calls are pairwise distinct. -/
theorem create_ids_pairwise_distinct (ops : List Op) :
    (createdIds emptyStore ops).Nodup :=
  ((createdIds_spec ops emptyStore).2).nodup

theorem find?_map_update (i : Nat) (f : Task → Task)
    (hf : ∀ t : Task, (f t).id = t.id) :
    ∀ (ts : List Task) (t : Task), ts.find? (fun t => t.id == i) = some t →
      (ts.map (fun u => if u.id == i then f u else u)).find? (fun t => t.id == i)
        = some (f t)
  | [], t, h => by simp at h
  | u :: ts, t, h => by
    by_cases hu : (u.id == i) = true
    · simp only [List.find?_cons, hu] at h
      injection h with h
      subst h
      have hfu : ((f u).id == i) = true := by rw [hf u]; exact hu
      rw [List.map_cons, if_pos hu, List.find?_cons]
      simp only [hfu]
    · have hu2 : (u.id == i) = false := by simpa using hu
      simp only [List.find?_cons, hu2] at h
      have ih := find?_map_update i f hf ts t h
      rw [List.map_cons, if_neg hu, List.find?_cons]
      simp only [hu2]
      exact ih

/-- C5: `complete(id, outcome)` fails with `NotFoundError` on an unknown id
and with `InvalidTransitionError` when the task is not in_progress (e.g. a
pending, never-claimed task, or a second complete of a finished task), in
both cases leaving the store — hence the task's status — exactly as it was;
on success it sets `status = outcome`, stores `result`, clears `claimed_by`
and updates `updated_at`. -/
theorem complete_contract (s : Store) (i : Nat) (o : Outcome)
    (res : Option String) (now : Nat) :
    (findTask s i = none →
      complete s i o res now true = (Except.error LedgerError.NotFoundError, s))
  ∧ (∀ t, findTask s i = some t → t.status ≠ Status.in_progress →
      complete s i o res now true = (Except.error LedgerError.InvalidTransitionError, s))
  ∧ (∀ t, findTask s i = some t → t.status = Status.in_progress →
      (complete s i o res now true).1 = Except.ok () ∧
      findTask (complete s i o res now true).2 i
        = some { t with
                   status := o.toStatus,
                   result := res,
                   claimed_by := none,
                   updated_at := now }) := by
  refine ⟨?_, ?_, ?_⟩
  · intro h
    simp [complete, h]
  · intro t h hst
    have hb : (t.status == Status.in_progress) = false := by simpa using hst
    simp [complete, h, hb]
  · intro t h hst
    have hb : (t.status == Status.in_progress) = true := by simpa using hst
    have hred : complete s i o res now true
        = (Except.ok (),
           { s with
             tasks := s.tasks.map (fun u => if u.id == i then completeRecord o res now u else u),
             last_updated := now }) := by
      simp [complete, h, hb]
    constructor
    · rw [hred]
    · rw [hred]
      exact find?_map_update i (completeRecord o res now) (fun u => rfl) s.tasks t h

/-- C5 witness: the contract applied to a concrete store (task 0 claimed,
task 1 pending): unknown id 5, completing the pending task 1, and
completing the in_progress task 0. -/
theorem complete_contract_witness :
    complete completionScenarioStore 5 Outcome.completed none 9 true
      = (Except.error LedgerError.NotFoundError, completionScenarioStore)
  ∧ complete completionScenarioStore 1 Outcome.completed none 9 true
      = (Except.error LedgerError.InvalidTransitionError, completionScenarioStore)
  ∧ (complete completionScenarioStore 0 Outcome.completed none 9 true).1 = Except.ok () :=
  ⟨(complete_contract completionScenarioStore 5 Outcome.completed none 9).1 (by decide),
   (complete_contract completionScenarioStore 1 Outcome.completed none 9).2.1
     { id := 1, type := "seed", status := Status.pending, data := [],
       parent_id := none, claimed_by := none, created_at := 1, updated_at := 1,
       result := none } (by decide) (by decide),
   ((complete_contract completionScenarioStore 0 Outcome.completed none 9).2.2
     { id := 0, type := "seed", status := Status.in_progress, data := [],
       parent_id := none, claimed_by := some "w", created_at := 0, updated_at := 2,
       result := none } (by decide) rfl).1⟩

/-- C6: `create(type, data, parent_id)` with an unknown parent fails with
`UnknownParentError` and creates no record (the store is returned
unchanged); with a valid or absent parent it returns the fresh id and
appends exactly one new pending Task Record whose payload is stored
verbatim. -/
theorem create_contract (s : Store) (ty : String) (d : List (String × String))
    (p : Option Nat) (now : Nat) :
    (∀ pid, p = some pid → hasId s pid = false →
      create s ty d p now true = (Except.error LedgerError.UnknownParentError, s))
  ∧ (parentOk s p = true →
      (create s ty d p now true).1 = Except.ok s.next_id ∧
      (create s ty d p now true).2.tasks
        = s.tasks ++ [{ id := s.next_id, type := ty, status := Status.pending,
                        data := d, parent_id := p, claimed_by := none,
                        created_at := now, updated_at := now,
                        result := none }]) := by
  constructor
  · intro pid hp hid
    subst hp
    have hpo : parentOk s (some pid) = false := by simp [parentOk, hid]
    simp [create, hpo]
  · intro hp
    constructor <;> simp [create, hp]

/-- C6 witness: the contract applied to the empty store — creating with
unknown parent id 5 fails and mutates nothing; creating without a parent
returns id 0 and appends the pending record. -/
theorem create_contract_witness :
    create emptyStore "seed" [("k", "v")] (some 5) 3 true
      = (Except.error LedgerError.UnknownParentError, emptyStore)
  ∧ (create emptyStore "seed" [("k", "v")] none 3 true).1 = Except.ok emptyStore.next_id
  ∧ (create emptyStore "seed" [("k", "v")] none 3 true).2.tasks
      = emptyStore.tasks
          ++ [{ id := emptyStore.next_id, type := "seed", status := Status.pending,
                data := [("k", "v")], parent_id := none, claimed_by := none,
                created_at := 3, updated_at := 3, result := none }] :=
  ⟨(create_contract emptyStore "seed" [("k", "v")] (some 5) 3).1 5 rfl (by decide),
   ((create_contract emptyStore "seed" [("k", "v")] none 3).2 (by decide)).1,
   ((create_contract emptyStore "seed" [("k", "v")] none 3).2 (by decide)).2⟩

/-- C7: every failed mutating call — `create`, `claim` or `complete`,
including a `persist()` failure after the in-memory mutation — returns the
store exactly as it was before the call (atomic all-or-nothing
semantics). -/
theorem failed_mutation_rollback (s : Store) (ty c : String)
    (d : List (String × String)) (p : Option Nat) (i now : Nat) (o : Outcome)
    (res : Option String) (ok : Bool) :
    (∀ e, (create s ty d p now ok).1 = Except.error e → (create s ty d p now ok).2 = s)
  ∧ (∀ e, (claim s ty c now ok).1 = Except.error e → (claim s ty c now ok).2 = s)
  ∧ (∀ e, (complete s i o res now ok).1 = Except.error e →
      (complete s i o res now ok).2 = s) := by
  refine ⟨?_, ?_, ?_⟩
  · intro e h
    unfold create at h ⊢
    by_cases hp : parentOk s p
    · cases ok with
      | false => simp [hp]
      | true => simp [hp] at h
    · simp [hp]
  · intro e h
    unfold claim at h ⊢
    cases hc : claimAux c now ty s.tasks with
    | none => simp [hc]
    | some r =>
      obtain ⟨t, ts2⟩ := r
      cases ok with
      | false => simp [hc]
      | true => simp [hc] at h
  · intro e h
    unfold complete at h ⊢
    cases hf : findTask s i with
    | none => simp [hf]
    | some t =>
      by_cases hs : t.status == Status.in_progress
      · cases ok with
        | false => simp [hf, hs]
        | true => simp [hf, hs] at h
      · simp [hf, hs]

/-- C7 witness: rollback observed concretely — a create with an unknown
parent, a claim whose persist fails with a pending task available, and a
complete whose persist fails on an in_progress task all leave their store
untouched. -/
theorem failed_mutation_rollback_witness :
    (create emptyStore "seed" [] (some 3) 4 true).2 = emptyStore
  ∧ (claim completionScenarioStore "seed" "v" 9 false).2 = completionScenarioStore
  ∧ (complete completionScenarioStore 0 Outcome.failed none 9 false).2
      = completionScenarioStore :=
  ⟨(failed_mutation_rollback emptyStore "seed" "v" [] (some 3) 0 4 Outcome.failed
      none true).1 LedgerError.UnknownParentError rfl,
   (failed_mutation_rollback completionScenarioStore "seed" "v" [] none 0 9
      Outcome.failed none false).2.1 LedgerError.PersistError rfl,
   (failed_mutation_rollback completionScenarioStore "seed" "v" [] none 0 9
      Outcome.failed none false).2.2 LedgerError.PersistError rfl⟩

theorem statusCount_partition :
    ∀ l : List Task,
      ([Status.pending, Status.in_progress, Status.completed, Status.failed,
        Status.cancelled].map
          (fun st => (l.filter (fun t => t.status == st)).length)).sum = l.length
  | [] => by simp
  | t :: l => by
    have ih := statusCount_partition l
    simp only [List.map_cons, List.map_nil, List.sum_cons, List.sum_nil,
      List.filter_cons, List.length_cons] at ih ⊢
    cases ht : t.status <;> simp <;> omega

/-- C3 counterexample: the summary mapping read by the callers in src/ is
keyed `total_tasks` / `type_counts` / `status_counts` / `metadata`, not
`total` / `counts_by_type` / `counts_by_status` / `last_updated` as the spec
states; in particular the key `total` does not exist. -/
theorem status_summary_keys_counterexample :
    get_status_summary_keys ≠ status_summary_spec_keys
  ∧ "total" ∈ status_summary_spec_keys
  ∧ "total" ∉ get_status_summary_keys := by
  refine ⟨?_, ?_, ?_⟩ <;> decide

/-- C3 amended: `get_status_summary` returns a mapping with keys
`total_tasks`, `type_counts`, `status_counts` and `metadata` (the latter
holding `last_updated`), with every count computed over the full Ledger Store
at call time; the per-status counts partition the total. -/
theorem status_summary_fields (s : Store) :
    (get_status_summary s).total_tasks = s.tasks.length
  ∧ (∀ ty : String, (get_status_summary s).type_counts ty
      = s.tasks.countP (fun t => t.type == ty))
  ∧ (∀ st : Status, (get_status_summary s).status_counts st
      = s.tasks.countP (fun t => t.status == st))
  ∧ (get_status_summary s).metadata_last_updated = s.last_updated
  ∧ ([Status.pending, Status.in_progress, Status.completed, Status.failed,
        Status.cancelled].map (get_status_summary s).status_counts).sum
      = (get_status_summary s).total_tasks
  ∧ get_status_summary_keys
      = ["total_tasks", "type_counts", "status_counts", "metadata"] := by
  refine ⟨rfl, ?_, ?_, rfl, ?_, rfl⟩
  · intro ty
    simp [get_status_summary, List.countP_eq_length_filter]
  · intro st
    simp [get_status_summary, List.countP_eq_length_filter]
  · exact statusCount_partition s.tasks

/-- C4 counterexample: in the scenario — 5 `seed` and 2 `draft` tasks
created, 1 `seed` claimed and completed — the pending count is not 5 as the
claim states (7 tasks exist and only 1 has left pending). -/
theorem status_summary_scenario_counterexample :
    (get_status_summary summaryScenarioStore).status_counts Status.pending ≠ 5 := by
  decide

/-- C4 amended: in that scenario the summary reports type counts
seed = 5, draft = 2 and status counts pending = 6, in_progress = 0,
completed = 1, failed = 0, cancelled = 0 (total 7). -/
theorem status_summary_scenario_amended :
    (get_status_summary summaryScenarioStore).total_tasks = 7
  ∧ (get_status_summary summaryScenarioStore).type_counts "seed" = 5
  ∧ (get_status_summary summaryScenarioStore).type_counts "draft" = 2
  ∧ (get_status_summary summaryScenarioStore).status_counts Status.pending = 6
  ∧ (get_status_summary summaryScenarioStore).status_counts Status.in_progress = 0
  ∧ (get_status_summary summaryScenarioStore).status_counts Status.completed = 1
  ∧ (get_status_summary summaryScenarioStore).status_counts Status.failed = 0
  ∧ (get_status_summary summaryScenarioStore).status_counts Status.cancelled = 0 := by
  refine ⟨?_, ?_, ?_, ?_, ?_, ?_, ?_, ?_⟩ <;> decide

end Ledger

namespace Experiments

/-- C9: whenever the `data_pipeline.py list` subprocess exits nonzero,
`BatchProcessor.get_pending_seed_tasks` / `get_pending_draft_tasks` return
the empty list — the same value they return for a successful run that found
no pending tasks, so a ledger failure is indistinguishable from an empty
store at this layer. -/
theorem list_failure_collapses_to_empty (run : List String → CmdResult) :
    ((run seed_list_cmd).returncode ≠ 0 → get_pending_seed_tasks run = [])
  ∧ ((run draft_list_cmd).returncode ≠ 0 → get_pending_draft_tasks run = [])
  ∧ (∀ run2 : List String → CmdResult,
      run2 seed_list_cmd = { returncode := 0, data_tasks := some [] } →
      get_pending_seed_tasks run2 = [])
  ∧ (∀ run2 : List String → CmdResult,
      run2 draft_list_cmd = { returncode := 0, data_tasks := some [] } →
      get_pending_draft_tasks run2 = []) := by
  refine ⟨?_, ?_, ?_, ?_⟩
  · intro h
    simp [get_pending_seed_tasks, h]
  · intro h
    simp [get_pending_draft_tasks, h]
  · intro run2 h
    simp [get_pending_seed_tasks, h]
  · intro run2 h
    simp [get_pending_draft_tasks, h]

/-- C9 witness: a failing subprocess (exit code 1) and a successful empty
listing both yield `[]`. -/
theorem list_failure_collapses_to_empty_witness :
    get_pending_seed_tasks (fun _ => { returncode := 1, data_tasks := none }) = []
  ∧ get_pending_draft_tasks (fun _ => { returncode := 1, data_tasks := none }) = []
  ∧ get_pending_seed_tasks (fun _ => { returncode := 0, data_tasks := some [] }) = []
  ∧ get_pending_draft_tasks (fun _ => { returncode := 0, data_tasks := some [] }) = [] :=
  ⟨(list_failure_collapses_to_empty (fun _ => { returncode := 1, data_tasks := none })).1
      (by decide),
   (list_failure_collapses_to_empty (fun _ => { returncode := 1, data_tasks := none })).2.1
      (by decide),
   (list_failure_collapses_to_empty (fun _ => { returncode := 0, data_tasks := some [] })).2.2.1
      _ rfl,
   (list_failure_collapses_to_empty (fun _ => { returncode := 0, data_tasks := some [] })).2.2.2
      _ rfl⟩

theorem insertDesc_perm (x : String × Nat) :
    ∀ l : List (String × Nat), List.Perm (insertDesc x l) (x :: l)
  | [] => List.Perm.refl _
  | y :: ys => by
    unfold insertDesc
    by_cases h : y.2 < x.2
    · rw [if_pos h]
    · rw [if_neg h]
      exact ((insertDesc_perm x ys).cons y).trans (List.Perm.swap x y ys)

theorem foldl_insertDesc_perm :
    ∀ (l acc : List (String × Nat)),
      List.Perm (l.foldl (fun acc x => insertDesc x acc) acc) (acc ++ l)
  | [], acc => by simp
  | x :: l, acc => by
    simp only [List.foldl_cons]
    refine (foldl_insertDesc_perm l (insertDesc x acc)).trans ?_
    refine (List.Perm.append_right l (insertDesc_perm x acc)).trans ?_
    exact List.perm_middle.symm

theorem sortDesc_perm (l : List (String × Nat)) : List.Perm (sortDesc l) l := by
  simpa [sortDesc] using foldl_insertDesc_perm l []

theorem ValueSum_nil : ValueSum [] = 0 := rfl

theorem ValueSum_cons (p : String × Nat) (l : List (String × Nat)) :
    ValueSum (p :: l) = p.2 + ValueSum l := by
  simp [ValueSum]

theorem ValueSum_append (l1 l2 : List (String × Nat)) :
    ValueSum (l1 ++ l2) = ValueSum l1 + ValueSum l2 := by
  simp [ValueSum]

theorem find?_key_of_mem :
    ∀ (l : List (String × Nat)) (k : String), k ∈ l.map Prod.fst →
      ∃ v, l.find? (fun p => p.1 == k) = some (k, v) ∧ (k, v) ∈ l
  | [], k, h => by simp at h
  | p :: l, k, h => by
    by_cases hp : (p.1 == k) = true
    · have hpk : p.1 = k := by simpa using hp
      obtain ⟨a, b⟩ := p
      subst hpk
      exact ⟨b, by simp [List.find?_cons], List.mem_cons_self _ _⟩
    · have hp2 : (p.1 == k) = false := by simpa using hp
      have hpk : p.1 ≠ k := by simpa using hp
      have hmem : k ∈ l.map Prod.fst := by
        rw [List.map_cons] at h
        rcases List.mem_cons.mp h with h1 | h1
        · exact absurd h1.symm hpk
        · exact h1
      obtain ⟨v, hf, hm⟩ := find?_key_of_mem l k hmem
      exact ⟨v, by simp [List.find?_cons, hp2, hf], List.mem_cons_of_mem p hm⟩

theorem setCount_cons (p : String × Nat) (l : List (String × Nat)) (k : String)
    (v : Nat) :
    setCount (p :: l) k v = (if p.1 == k then (p.1, v) else p) :: setCount l k v := rfl

theorem setCount_map_fst (k : String) (v : Nat) :
    ∀ l : List (String × Nat), (setCount l k v).map Prod.fst = l.map Prod.fst
  | [] => rfl
  | p :: l => by
    rw [setCount_cons, List.map_cons, List.map_cons, setCount_map_fst k v l]
    by_cases hp : (p.1 == k) = true <;> simp [hp]

theorem setCount_of_not_mem (k : String) (v : Nat) :
    ∀ l : List (String × Nat), k ∉ l.map Prod.fst → setCount l k v = l
  | [], _ => rfl
  | p :: l, h => by
    have h1 : p.1 ≠ k := by
      intro hc
      exact h (by simp [hc])
    have h2 : k ∉ l.map Prod.fst := by
      intro hc
      exact h (List.mem_cons_of_mem _ hc)
    have hb : (p.1 == k) = false := by simpa using h1
    rw [setCount_cons, hb, setCount_of_not_mem k v l h2]
    simp

theorem mem_setCount (k : String) (v : Nat) :
    ∀ (l : List (String × Nat)) (p2 : String × Nat), p2 ∈ setCount l k v →
      (p2.1 = k ∧ p2.2 = v) ∨ p2 ∈ l
  | [], p2, h => by simp [setCount] at h
  | p :: l, p2, h => by
    rw [setCount_cons] at h
    rcases List.mem_cons.mp h with h1 | h1
    · by_cases hp : (p.1 == k) = true
      · rw [if_pos hp] at h1
        subst h1
        exact Or.inl ⟨by simpa using hp, rfl⟩
      · rw [if_neg hp] at h1
        subst h1
        exact Or.inr (List.mem_cons_self _ _)
    · rcases mem_setCount k v l p2 h1 with h2 | h2
      · exact Or.inl h2
      · exact Or.inr (List.mem_cons_of_mem p h2)

theorem ValueSum_setCount (k : String) (v : Nat) :
    ∀ (l : List (String × Nat)) (cur : Nat),
      (l.map Prod.fst).Nodup →
      l.find? (fun p => p.1 == k) = some (k, cur) →
      ValueSum (setCount l k v) + cur = ValueSum l + v
  | [], cur, _, h => by simp at h
  | p :: l, cur, hnd, h => by
    rw [List.map_cons, List.nodup_cons] at hnd
    obtain ⟨hp1, hnd2⟩ := hnd
    by_cases hp : (p.1 == k) = true
    · have hpk : p.1 = k := by simpa using hp
      simp only [List.find?_cons, hp] at h
      injection h with h
      have hknotin : k ∉ l.map Prod.fst := by
        rw [← hpk]
        exact hp1
      rw [setCount_cons, if_pos hp, setCount_of_not_mem k v l hknotin,
        ValueSum_cons, ValueSum_cons]
      have hcur : p.2 = cur := congrArg Prod.snd h
      omega
    · have hp2 : (p.1 == k) = false := by simpa using hp
      simp only [List.find?_cons, hp2] at h
      have ih := ValueSum_setCount k v l cur hnd2 h
      rw [setCount_cons, if_neg hp, ValueSum_cons, ValueSum_cons]
      omega

theorem phase1Step_cases (count total : Nat) (st : SelState) (p : String × Nat) :
    phase1Step count total st p = st
    ∨ ∃ v, 0 < v ∧ v ≤ (poolOf p.1).length ∧ v ≤ st.remaining ∧
        phase1Step count total st p
          = { counts := st.counts ++ [(p.1, v)], remaining := st.remaining - v } := by
  by_cases h0 : (poolOf p.1).length = 0
  · refine Or.inl ?_
    simp only [phase1Step]
    rw [if_pos (by simp [h0])]
  · by_cases hv : 0 < min (min (pyRound (p.2 * count) total) (poolOf p.1).length) st.remaining
    · refine Or.inr ⟨min (min (pyRound (p.2 * count) total) (poolOf p.1).length) st.remaining,
        hv, le_trans (Nat.min_le_left _ _) (Nat.min_le_right _ _),
        Nat.min_le_right _ _, ?_⟩
      simp only [phase1Step]
      rw [if_neg (by simpa using h0), if_pos hv]
    · refine Or.inl ?_
      simp only [phase1Step]
      rw [if_neg (by simpa using h0), if_neg hv]

theorem phase1_fold_spec (count total : Nat) :
    ∀ (l : List (String × Nat)) (st : SelState),
      (ValueSum ((l.foldl (phase1Step count total) st).counts)
          + (l.foldl (phase1Step count total) st).remaining
        = ValueSum st.counts + st.remaining)
      ∧ (∃ q, (l.foldl (phase1Step count total) st).counts.map Prod.fst
            = st.counts.map Prod.fst ++ q ∧ List.Sublist q (l.map Prod.fst))
      ∧ ((∀ p2 ∈ st.counts, p2.2 ≤ (poolOf p2.1).length) →
          ∀ p2 ∈ (l.foldl (phase1Step count total) st).counts,
            p2.2 ≤ (poolOf p2.1).length)
  | [], st => ⟨rfl, ⟨[], by simp, List.nil_sublist _⟩, fun h => h⟩
  | p :: l, st => by
    simp only [List.foldl_cons]
    rcases phase1Step_cases count total st p with hstep | ⟨v, hv0, hvp, hvr, hstep⟩
    · rw [hstep]
      obtain ⟨ih1, ⟨q, hq, hqs⟩, ih3⟩ := phase1_fold_spec count total l st
      exact ⟨ih1, ⟨q, hq, List.Sublist.cons p.1 hqs⟩, ih3⟩
    · rw [hstep]
      obtain ⟨ih1, ⟨q, hq, hqs⟩, ih3⟩ := phase1_fold_spec count total l
        { counts := st.counts ++ [(p.1, v)], remaining := st.remaining - v }
      refine ⟨?_, ⟨p.1 :: q, ?_, ?_⟩, ?_⟩
      · rw [ih1]
        show ValueSum (st.counts ++ [(p.1, v)]) + (st.remaining - v)
          = ValueSum st.counts + st.remaining
        rw [ValueSum_append, ValueSum_cons, ValueSum_nil]
        omega
      · rw [hq]
        show (st.counts ++ [(p.1, v)]).map Prod.fst ++ q
          = st.counts.map Prod.fst ++ (p.1 :: q)
        simp
      · exact List.Sublist.cons₂ p.1 hqs
      · intro hb
        apply ih3
        intro p2 hp2
        have hp2b : p2 ∈ st.counts ++ [(p.1, v)] := hp2
        rcases List.mem_append.mp hp2b with h2 | h2
        · exact hb p2 h2
        · have hp2e : p2 = (p.1, v) := by simpa using h2
          rw [hp2e]
          exact hvp

theorem phase2Step_spec (st : SelState) (k : String)
    (hnd : (st.counts.map Prod.fst).Nodup)
    (hk : k ∈ st.counts.map Prod.fst) :
    ((phase2Step st k).counts.map Prod.fst = st.counts.map Prod.fst)
    ∧ (ValueSum (phase2Step st k).counts + (phase2Step st k).remaining
        = ValueSum st.counts + st.remaining)
    ∧ ((∀ p2 ∈ st.counts, p2.2 ≤ (poolOf p2.1).length) →
        ∀ p2 ∈ (phase2Step st k).counts, p2.2 ≤ (poolOf p2.1).length) := by
  obtain ⟨cur, hfind, hentry⟩ := find?_key_of_mem st.counts k hk
  have hget : getCount st.counts k = cur := by simp [getCount, hfind]
  by_cases hrem : st.remaining = 0
  · have hstep : phase2Step st k = st := by
      simp only [phase2Step]
      rw [if_pos (by simp [hrem])]
    rw [hstep]
    exact ⟨rfl, rfl, fun h => h⟩
  · by_cases hav : 0 < (poolOf k).length - getCount st.counts k
    · have hstep : phase2Step st k
          = { counts := setCount st.counts k
                (getCount st.counts k
                  + min ((poolOf k).length - getCount st.counts k) st.remaining),
              remaining := st.remaining
                - min ((poolOf k).length - getCount st.counts k) st.remaining } := by
        simp only [phase2Step]
        rw [if_neg (by simpa using hrem), if_pos hav]
      rw [hstep]
      refine ⟨?_, ?_, ?_⟩
      · show (setCount st.counts k
            (getCount st.counts k
              + min ((poolOf k).length - getCount st.counts k) st.remaining)).map Prod.fst
          = st.counts.map Prod.fst
        exact setCount_map_fst _ _ _
      · show ValueSum (setCount st.counts k
            (getCount st.counts k
              + min ((poolOf k).length - getCount st.counts k) st.remaining))
          + (st.remaining
              - min ((poolOf k).length - getCount st.counts k) st.remaining)
          = ValueSum st.counts + st.remaining
        have hvs := ValueSum_setCount k
          (getCount st.counts k
            + min ((poolOf k).length - getCount st.counts k) st.remaining)
          st.counts cur hnd hfind
        have hminle : min ((poolOf k).length - getCount st.counts k) st.remaining
            ≤ st.remaining := Nat.min_le_right _ _
        rw [hget] at hvs
        rw [hget]
        omega
      · intro hb p2 hp2
        have hp2b : p2 ∈ setCount st.counts k
            (getCount st.counts k
              + min ((poolOf k).length - getCount st.counts k) st.remaining) := hp2
        rcases mem_setCount _ _ _ _ hp2b with ⟨hk2, hv2⟩ | h2
        · rw [hv2, hk2, hget]
          have hcur_le : cur ≤ (poolOf k).length := hb (k, cur) hentry
          have hm := Nat.min_le_left ((poolOf k).length - cur) st.remaining
          omega
        · exact hb p2 h2
    · have hstep : phase2Step st k = st := by
        simp only [phase2Step]
        rw [if_neg (by simpa using hrem), if_neg hav]
      rw [hstep]
      exact ⟨rfl, rfl, fun h => h⟩

theorem phase2_fold_spec :
    ∀ (ks : List String) (st : SelState),
      (st.counts.map Prod.fst).Nodup →
      (∀ k ∈ ks, k ∈ st.counts.map Prod.fst) →
      ((ks.foldl phase2Step st).counts.map Prod.fst = st.counts.map Prod.fst)
      ∧ (ValueSum (ks.foldl phase2Step st).counts
          + (ks.foldl phase2Step st).remaining
        = ValueSum st.counts + st.remaining)
      ∧ ((∀ p2 ∈ st.counts, p2.2 ≤ (poolOf p2.1).length) →
          ∀ p2 ∈ (ks.foldl phase2Step st).counts, p2.2 ≤ (poolOf p2.1).length)
  | [], st, _, _ => ⟨rfl, rfl, fun h => h⟩
  | k :: ks, st, hnd, hmem => by
    simp only [List.foldl_cons]
    obtain ⟨hs1, hs2, hs3⟩ := phase2Step_spec st k hnd (hmem k (List.mem_cons_self k ks))
    have hnd2 : ((phase2Step st k).counts.map Prod.fst).Nodup := by
      rw [hs1]
      exact hnd
    have hmem2 : ∀ k2 ∈ ks, k2 ∈ (phase2Step st k).counts.map Prod.fst := by
      intro k2 h2
      rw [hs1]
      exact hmem k2 (List.mem_cons_of_mem k h2)
    obtain ⟨ih1, ih2, ih3⟩ := phase2_fold_spec ks (phase2Step st k) hnd2 hmem2
    refine ⟨?_, ?_, ?_⟩
    · rw [ih1, hs1]
    · rw [ih2, hs2]
    · intro hb
      exact ih3 (hs3 hb)

theorem ValueSum_le_pool_sum :
    ∀ counts : List (String × Nat),
      (∀ p2 ∈ counts, p2.2 ≤ (poolOf p2.1).length) →
      ValueSum counts ≤ (counts.map (fun p => (poolOf p.1).length)).sum
  | [], _ => Nat.le_refl 0
  | p :: counts, h => by
    rw [ValueSum_cons, List.map_cons, List.sum_cons]
    have ih := ValueSum_le_pool_sum counts (fun q hq => h q (List.mem_cons_of_mem p hq))
    have hp := h p (List.mem_cons_self p counts)
    omega

theorem selection_foldl_length (sample : List TaskSpec → Nat → List TaskSpec)
    (hsample : ∀ pool k, k ≤ pool.length → (sample pool k).length = k) :
    ∀ (counts : List (String × Nat)) (acc : List TaskSpec),
      (∀ p2 ∈ counts, p2.2 ≤ (poolOf p2.1).length) →
      (counts.foldl
        (fun acc p =>
          acc ++ ((sample (poolOf p.1) p.2).map (fun t => { t with language := some p.1 })))
        acc).length = acc.length + ValueSum counts
  | [], acc, _ => by simp [ValueSum]
  | p :: counts, acc, hb => by
    simp only [List.foldl_cons]
    rw [selection_foldl_length sample hsample counts _
      (fun q hq => hb q (List.mem_cons_of_mem p hq))]
    rw [List.length_append, List.length_map,
      hsample (poolOf p.1) p.2 (hb p (List.mem_cons_self p counts)), ValueSum_cons]
    omega

/-- C10: `select_tasks(count, language_percentages)` (for any sampler
returning the requested number of pool elements and any length-preserving
shuffle) returns at most `count` tasks; each language receives at most
`len(TASK_POOL[language])` tasks; and when `count` exceeds the combined pool
capacity of the requested languages, strictly fewer than `count` tasks are
returned. -/
theorem select_tasks_bounds (count : Nat) (pcts : List (String × Nat))
    (sample : List TaskSpec → Nat → List TaskSpec)
    (shuffle : List TaskSpec → List TaskSpec)
    (hsample : ∀ pool k, k ≤ pool.length → (sample pool k).length = k)
    (hshuffle : ∀ l : List TaskSpec, (shuffle l).length = l.length)
    (hne : pcts ≠ [])
    (hpos : ∀ p ∈ pcts, 0 < p.2)
    (hnd : (pcts.map Prod.fst).Nodup) :
    ((select_tasks count pcts sample shuffle).1.length ≤ count)
  ∧ (∀ p ∈ (select_tasks count pcts sample shuffle).2,
      p.2 ≤ (poolOf p.1).length)
  ∧ (capacity pcts < count →
      (select_tasks count pcts sample shuffle).1.length < count) := by
  obtain ⟨h1sum, ⟨q, hq, hqs⟩, h1bound⟩ :=
    phase1_fold_spec count ((pcts.map Prod.snd).sum) (sortDesc pcts)
      { counts := [], remaining := count }
  have hq2 : ((sortDesc pcts).foldl (phase1Step count ((pcts.map Prod.snd).sum))
      { counts := [], remaining := count }).counts.map Prod.fst = q := by
    rw [hq]
    simp
  have hndq : q.Nodup := by
    have hnds : (((sortDesc pcts).map Prod.fst)).Nodup :=
      ((sortDesc_perm pcts).map Prod.fst).nodup_iff.mpr hnd
    exact List.Nodup.sublist hqs hnds
  have hnd1 : (((sortDesc pcts).foldl (phase1Step count ((pcts.map Prod.snd).sum))
      { counts := [], remaining := count }).counts.map Prod.fst).Nodup := by
    rw [hq2]
    exact hndq
  obtain ⟨h2keys, h2sum, h2bound⟩ :=
    phase2_fold_spec
      (((sortDesc pcts).foldl (phase1Step count ((pcts.map Prod.snd).sum))
        { counts := [], remaining := count }).counts.map Prod.fst)
      ((sortDesc pcts).foldl (phase1Step count ((pcts.map Prod.snd).sum))
        { counts := [], remaining := count })
      hnd1 (fun k hk => hk)
  have hb1 : ∀ p2 ∈ ((sortDesc pcts).foldl (phase1Step count ((pcts.map Prod.snd).sum))
        { counts := [], remaining := count }).counts, p2.2 ≤ (poolOf p2.1).length :=
    h1bound (by simp)
  have hb2f : ∀ p2 ∈ ((((sortDesc pcts).foldl (phase1Step count ((pcts.map Prod.snd).sum))
        { counts := [], remaining := count }).counts.map Prod.fst).foldl phase2Step
      ((sortDesc pcts).foldl (phase1Step count ((pcts.map Prod.snd).sum))
        { counts := [], remaining := count })).counts,
      p2.2 ≤ (poolOf p2.1).length :=
    h2bound hb1
  have hsel1 : (select_tasks count pcts sample shuffle).1
      = shuffle (((((sortDesc pcts).foldl (phase1Step count ((pcts.map Prod.snd).sum))
        { counts := [], remaining := count }).counts.map Prod.fst).foldl phase2Step
      ((sortDesc pcts).foldl (phase1Step count ((pcts.map Prod.snd).sum))
        { counts := [], remaining := count })).counts.foldl
          (fun acc p =>
            acc ++ ((sample (poolOf p.1) p.2).map (fun t => { t with language := some p.1 })))
          []) := rfl
  have hsel2 : (select_tasks count pcts sample shuffle).2
      = ((((sortDesc pcts).foldl (phase1Step count ((pcts.map Prod.snd).sum))
        { counts := [], remaining := count }).counts.map Prod.fst).foldl phase2Step
      ((sortDesc pcts).foldl (phase1Step count ((pcts.map Prod.snd).sum))
        { counts := [], remaining := count })).counts := rfl
  have hsum2 : ValueSum ((((sortDesc pcts).foldl (phase1Step count ((pcts.map Prod.snd).sum))
        { counts := [], remaining := count }).counts.map Prod.fst).foldl phase2Step
      ((sortDesc pcts).foldl (phase1Step count ((pcts.map Prod.snd).sum))
        { counts := [], remaining := count })).counts
      + ((((sortDesc pcts).foldl (phase1Step count ((pcts.map Prod.snd).sum))
        { counts := [], remaining := count }).counts.map Prod.fst).foldl phase2Step
      ((sortDesc pcts).foldl (phase1Step count ((pcts.map Prod.snd).sum))
        { counts := [], remaining := count })).remaining = count := by
    rw [h2sum]
    simpa [ValueSum] using h1sum
  have hlen : (select_tasks count pcts sample shuffle).1.length
      = ValueSum ((((sortDesc pcts).foldl (phase1Step count ((pcts.map Prod.snd).sum))
        { counts := [], remaining := count }).counts.map Prod.fst).foldl phase2Step
      ((sortDesc pcts).foldl (phase1Step count ((pcts.map Prod.snd).sum))
        { counts := [], remaining := count })).counts := by
    rw [hsel1, hshuffle]
    rw [selection_foldl_length sample hsample _ [] hb2f]
    simp
  have hkeys2 : ((((sortDesc pcts).foldl (phase1Step count ((pcts.map Prod.snd).sum))
        { counts := [], remaining := count }).counts.map Prod.fst).foldl phase2Step
      ((sortDesc pcts).foldl (phase1Step count ((pcts.map Prod.snd).sum))
        { counts := [], remaining := count })).counts.map Prod.fst = q := h2keys.trans hq2
  have hcap : ValueSum ((((sortDesc pcts).foldl (phase1Step count ((pcts.map Prod.snd).sum))
        { counts := [], remaining := count }).counts.map Prod.fst).foldl phase2Step
      ((sortDesc pcts).foldl (phase1Step count ((pcts.map Prod.snd).sum))
        { counts := [], remaining := count })).counts ≤ capacity pcts := by
    refine le_trans (ValueSum_le_pool_sum _ hb2f) ?_
    have hmm : (((((sortDesc pcts).foldl (phase1Step count ((pcts.map Prod.snd).sum))
        { counts := [], remaining := count }).counts.map Prod.fst).foldl phase2Step
      ((sortDesc pcts).foldl (phase1Step count ((pcts.map Prod.snd).sum))
        { counts := [], remaining := count })).counts.map
        (fun p => (poolOf p.1).length)).sum
        = ((((((sortDesc pcts).foldl (phase1Step count ((pcts.map Prod.snd).sum))
        { counts := [], remaining := count }).counts.map Prod.fst).foldl phase2Step
      ((sortDesc pcts).foldl (phase1Step count ((pcts.map Prod.snd).sum))
        { counts := [], remaining := count })).counts.map Prod.fst).map
            (fun k => (poolOf k).length)).sum := by
      rw [List.map_map]
      rfl
    rw [hmm, hkeys2]
    have hsl : List.Sublist (q.map (fun k => (poolOf k).length))
        (((sortDesc pcts).map Prod.fst).map (fun k => (poolOf k).length)) :=
      hqs.map _
    refine le_trans (List.Sublist.sum_le_sum hsl (fun a _ => Nat.zero_le a)) ?_
    have hps : (((sortDesc pcts).map Prod.fst).map (fun k => (poolOf k).length)).sum
        = ((sortDesc pcts).map (fun p => (poolOf p.1).length)).sum := by
      rw [List.map_map]
      rfl
    rw [hps]
    exact le_of_eq (((sortDesc_perm pcts).map (fun p => (poolOf p.1).length)).sum_eq)
  refine ⟨?_, ?_, ?_⟩
  · rw [hlen]
    omega
  · intro p hp
    rw [hsel2] at hp
    exact hb2f p hp
  · intro hclt
    rw [hlen]
    omega

/-- C10 witness: requesting 50 tasks over rust and java (combined pool
capacity 4) with a take-based sampler yields at most 50, per-language within
pool size, and strictly fewer than 50 selected tasks. -/
theorem select_tasks_bounds_witness :
    ((select_tasks 50 [("rust", 50), ("java", 50)] sampleTake id).1.length ≤ 50)
  ∧ (∀ p ∈ (select_tasks 50 [("rust", 50), ("java", 50)] sampleTake id).2,
      p.2 ≤ (poolOf p.1).length)
  ∧ (capacity [("rust", 50), ("java", 50)] < 50 →
      (select_tasks 50 [("rust", 50), ("java", 50)] sampleTake id).1.length < 50) :=
  select_tasks_bounds 50 [("rust", 50), ("java", 50)] sampleTake id
    (fun pool k hk => by simpa [sampleTake] using hk)
    (fun l => rfl)
    (by decide)
    (by decide)
    (by decide)

end Experiments
